import Mathlib

/-!
Verification of the gastown refinery (merge-queue processing agent).

Shallow embedding of `internal/refinery/types.go`: the data model
(`Refinery`, `MergeRequest`, `RefineryStats`, `QueueItem`), the JSON
persistence used by `saveState`/`loadState`, and the lifecycle operations
`Status`, `Start`, `Stop`, `Queue` of `Manager`, together with the pure
helpers `branchToMR`, `discoverWorkBranches` (its output parsing) and
`formatAge`.

Modelling conventions:
  - `time.Time` values and `time.Duration`s are integers (nanoseconds since
    the epoch); Go's duration arithmetic is exact integer arithmetic and the
    float conversions in `formatAge` (`int(d.Seconds())` etc.) are modelled
    as exact truncation toward zero (`Int.tdiv`).
  - Go strings of the state machine (`type State string`, `type MRStatus
    string`) stay strings, with the source's named constants.
  - The ambient effects of one operation are a `World`: the contents of the
    state file `.gastown/refinery.json` (a JSON value, `none` when the file
    does not exist), `os.Getpid()`, `time.Now()` (frozen for the duration of
    one call), and the outcome of the
    `git branch -r --list origin/polecat/*` subprocess (either its stdout or
    a failure). The liveness probe `processExists` is translated as the
    constant-false function the source computes (it passes a nil `os.Signal`
    to `proc.Signal`, which errors on every pid — see its definition).
    Disk writes in `saveState` are modelled as always
    succeeding; `os.MkdirAll`/`os.WriteFile` failures are environmental and
    outside this embedding. The `run` processing loop is a stub in the
    source (`select {}` blocks forever) and is not modelled; `Start` is
    modelled up to and including its persistence step, which in the source
    happens before the loop is entered in either mode.
-/

namespace Gastown

/-! ## Data model (types.go) -/

/-- Go: `type State string`. -/
abbrev State := String

/-- Go constant `StateStopped`. -/
def StateStopped : State := "stopped"

/-- Go constant `StateRunning`. -/
def StateRunning : State := "running"

/-- Go constant `StatePaused`. -/
def StatePaused : State := "paused"

/-- Go: `type MRStatus string`. -/
abbrev MRStatus := String

/-- Go constant `MRPending`. -/
def MRPending : MRStatus := "pending"

/-- Go constant `MRProcessing`. -/
def MRProcessing : MRStatus := "processing"

/-- Go constant `MRMerged`. -/
def MRMerged : MRStatus := "merged"

/-- Go constant `MRFailed`. -/
def MRFailed : MRStatus := "failed"

/-- Go constant `MRSkipped`. -/
def MRSkipped : MRStatus := "skipped"

/-- Nanoseconds in one time instant unit: `time.Time` as epoch nanoseconds. -/
abbrev Time := Int

/-- Go struct `MergeRequest` (types.go). `CreatedAt` is epoch nanoseconds. -/
structure MergeRequest where
  id : String
  branch : String
  worker : String
  issueID : String
  swarmID : String
  targetBranch : String
  createdAt : Time
  status : MRStatus
  error : String
deriving Repr, DecidableEq

/-- Go struct `RefineryStats` (types.go). -/
structure RefineryStats where
  totalMerged : Int
  totalFailed : Int
  totalSkipped : Int
  todayMerged : Int
  todayFailed : Int
deriving Repr, DecidableEq

/-- Go struct `Refinery` (types.go): the per-rig agent record. Go's zero /
omitted values for the optional fields (`PID` = 0, nil pointers) are `0` and
`none` here. -/
structure Refinery where
  rigName : String
  state : State
  pid : Int
  startedAt : Option Time
  currentMR : Option MergeRequest
  lastMergeAt : Option Time
  stats : RefineryStats
deriving Repr, DecidableEq

/-- Go struct `QueueItem` (types.go). The `MR` pointer is always non-nil at
every construction site, so it is a plain value here. -/
structure QueueItem where
  position : Nat
  mr : MergeRequest
  age : String
deriving Repr, DecidableEq

/-! ## JSON persistence

`saveState` writes `json.MarshalIndent(ref)`, `loadState` reads it back with
`json.Unmarshal`. The JSON fragment needed by these two struct trees is
objects, strings and numbers (times are epoch-nanosecond numbers here, a
faithful stand-in for RFC3339 strings: both determine the instant exactly).
Encoding follows the struct tags, including `omitempty` (a field is omitted
exactly when it holds its zero value); decoding follows `json.Unmarshal`:
a missing key leaves the zero value, a key of the wrong shape is an error. -/

inductive Json where
  | str : String → Json
  | num : Int → Json
  | obj : List (String × Json) → Json

/-- First binding of a key in a JSON object's field list. -/
def jlookup : List (String × Json) → String → Option Json
  | [], _ => none
  | (k, v) :: rest, key => if k = key then some v else jlookup rest key

/-- Decode a string-typed Go field: missing key yields the zero value `""`. -/
def getStr (fs : List (String × Json)) (key : String) : Option String :=
  match jlookup fs key with
  | none => some ""
  | some (.str s) => some s
  | some _ => none

/-- Decode an int-typed Go field: missing key yields the zero value `0`. -/
def getInt (fs : List (String × Json)) (key : String) : Option Int :=
  match jlookup fs key with
  | none => some 0
  | some (.num n) => some n
  | some _ => none

/-- Decode a `*time.Time` Go field: missing key yields `nil`. -/
def getOptNum (fs : List (String × Json)) (key : String) : Option (Option Int) :=
  match jlookup fs key with
  | none => some none
  | some (.num n) => some (some n)
  | some _ => none

/-- Serialization of `MergeRequest` per its struct tags (field order as
declared; `swarm_id` and `error` carry `omitempty`). -/
def encodeMR (mr : MergeRequest) : Json :=
  .obj ([("id", .str mr.id), ("branch", .str mr.branch), ("worker", .str mr.worker),
         ("issue_id", .str mr.issueID)]
    ++ (if mr.swarmID = "" then [] else [("swarm_id", .str mr.swarmID)])
    ++ [("target_branch", .str mr.targetBranch), ("created_at", .num mr.createdAt),
        ("status", .str mr.status)]
    ++ (if mr.error = "" then [] else [("error", .str mr.error)]))

/-- Deserialization of `MergeRequest` per `json.Unmarshal`. -/
def decodeMR (j : Json) : Option MergeRequest :=
  match j with
  | .obj fs =>
    match getStr fs "id", getStr fs "branch", getStr fs "worker", getStr fs "issue_id",
          getStr fs "swarm_id", getStr fs "target_branch", getInt fs "created_at",
          getStr fs "status", getStr fs "error" with
    | some id, some branch, some worker, some issueID, some swarmID, some targetBranch,
      some createdAt, some status, some err =>
        some ⟨id, branch, worker, issueID, swarmID, targetBranch, createdAt, status, err⟩
    | _, _, _, _, _, _, _, _, _ => none
  | _ => none

/-- Serialization of `RefineryStats` (no `omitempty` tags). -/
def encodeStats (s : RefineryStats) : Json :=
  .obj [("total_merged", .num s.totalMerged), ("total_failed", .num s.totalFailed),
        ("total_skipped", .num s.totalSkipped), ("today_merged", .num s.todayMerged),
        ("today_failed", .num s.todayFailed)]

/-- Deserialization of `RefineryStats`. -/
def decodeStats (j : Json) : Option RefineryStats :=
  match j with
  | .obj fs =>
    match getInt fs "total_merged", getInt fs "total_failed", getInt fs "total_skipped",
          getInt fs "today_merged", getInt fs "today_failed" with
    | some tm, some tf, some ts, some dm, some df => some ⟨tm, tf, ts, dm, df⟩
    | _, _, _, _, _ => none
  | _ => none

/-- Serialization of `Refinery` per its struct tags: `pid`, `started_at`,
`current_mr`, `last_merge_at` carry `omitempty`; `rig_name`, `state`,
`stats` are always emitted. -/
def encodeRefinery (r : Refinery) : Json :=
  .obj ([("rig_name", .str r.rigName), ("state", .str r.state)]
    ++ (if r.pid = 0 then [] else [("pid", .num r.pid)])
    ++ (match r.startedAt with | none => [] | some t => [("started_at", .num t)])
    ++ (match r.currentMR with | none => [] | some mr => [("current_mr", encodeMR mr)])
    ++ (match r.lastMergeAt with | none => [] | some t => [("last_merge_at", .num t)])
    ++ [("stats", encodeStats r.stats)])

/-- Deserialization of `Refinery` per `json.Unmarshal`: missing keys leave
Go zero values (`""`, `0`, nil pointers, zero stats). -/
def decodeRefinery (j : Json) : Option Refinery :=
  match j with
  | .obj fs =>
    match getStr fs "rig_name", getStr fs "state", getInt fs "pid",
          getOptNum fs "started_at",
          (match jlookup fs "current_mr" with
           | none => some none
           | some jmr => (decodeMR jmr).map some),
          getOptNum fs "last_merge_at",
          (match jlookup fs "stats" with
           | none => some ⟨0, 0, 0, 0, 0⟩
           | some js => decodeStats js) with
    | some rn, some st, some pid, some sa, some cmr, some lma, some stats =>
        some ⟨rn, st, pid, sa, cmr, lma, stats⟩
    | _, _, _, _, _, _, _ => none
  | _ => none

/-! ## Effects and the manager -/

/-- Failure causes of the `git branch -r --list origin/polecat/*` subprocess
(`cmd.Run()` in `discoverWorkBranches`): the code only inspects `err != nil`,
so the cause is carried for specification purposes only. -/
inductive GitErr where
  | connectivity
  | permission
  | noRepo
deriving Repr, DecidableEq

/-- Errors surfaced by the manager operations: the sentinel errors
`ErrNotRunning` / `ErrAlreadyRunning` of types.go, a `json.Unmarshal`
failure in `loadState`, and the spec's `DiscoveryError` kind for a
version-control query failure. -/
inductive RefErr where
  | notRunning
  | alreadyRunning
  | decodeError
  | discovery (e : GitErr)
deriving Repr, DecidableEq

/-- The two fields of `rig.Rig` the refinery manager reads. -/
structure Rig where
  name : String
  path : String
deriving Repr, DecidableEq

/-- Go struct `Manager` (the `workDir` only routes the git subprocess, whose
outcome lives in `World`). -/
structure Manager where
  rig : Rig
deriving Repr, DecidableEq

/-- Ambient state of one manager operation: the contents of
`.gastown/refinery.json` (`none` = file absent), `os.Getpid()`,
`time.Now()` in epoch nanoseconds, and the outcome of the branch-listing
git subprocess (stdout, or the failure that made `cmd.Run()` return an
error). The liveness probe `processExists` is a pure function of the source
and needs no ambient input (see its definition). -/
structure World where
  store : Option Json
  pid : Int
  now : Time
  git : Except GitErr String

/-- `processExists` (types.go): `os.FindProcess` always succeeds on Unix, so
the probe then evaluates `err = proc.Signal(nil); return err == nil`. The
argument is the nil `os.Signal` interface — not `syscall.Signal(0)` as the
adjacent comment intends — and inside `(*Process).signal` the type assertion
`s, ok := sig.(syscall.Signal)` fails on a nil interface, returning the
error `os: unsupported signal type` for every pid on every platform. So
`err == nil` is false and the probe reports every process as dead,
regardless of the pid or the actual process table. -/
def processExists (pid : Int) : Bool := false

/-- The record `loadState` fabricates when no state file exists: Go
`&Refinery{RigName: m.rig.Name, State: StateStopped}`, all other fields
zero. -/
def defaultRefinery (name : String) : Refinery :=
  { rigName := name, state := StateStopped, pid := 0, startedAt := none,
    currentMR := none, lastMergeAt := none, stats := ⟨0, 0, 0, 0, 0⟩ }

/-- `Manager.loadState`: a missing file becomes the default stopped record;
an existing file is unmarshalled, failure of which is an error. (Read
failures other than not-found are environmental and not modelled.) -/
def loadState (m : Manager) (w : World) : Except RefErr Refinery :=
  match w.store with
  | none => .ok (defaultRefinery m.rig.name)
  | some j =>
    match decodeRefinery j with
    | some r => .ok r
    | none => .error .decodeError

/-- `Manager.saveState`: full overwrite of the state file with the marshalled
record (directory creation and the disk write modelled as succeeding). -/
def saveState (m : Manager) (w : World) (r : Refinery) : World :=
  { w with store := some (encodeRefinery r) }

/-- `Manager.Status`: load; if the record is `Running` with a positive PID
that fails the `processExists` check, correct it in place to `Stopped` with
the PID cleared and persist the correction; return the record. -/
def status (m : Manager) (w : World) : Except RefErr Refinery × World :=
  match loadState m w with
  | .error e => (.error e, w)
  | .ok r =>
    if r.state = StateRunning ∧ 0 < r.pid ∧ processExists r.pid = false then
      let r2 := { r with state := StateStopped, pid := 0 }
      (.ok r2, saveState m w r2)
    else
      (.ok r, w)

/-- `Manager.Start`: load; a `Running` record whose positive PID passes the
`processExists` probe is `ErrAlreadyRunning` (a guard that can never fire,
since the probe is constantly false); otherwise stamp `Running`,
`StartedAt = now`, `PID = os.Getpid()` and persist. The source then either
returns (background mode: the MVP spawns nothing) or enters the stub `run`
loop (foreground mode: `select {}`, which never returns); the loop is not
modelled, and both modes share the persistence step modelled here. -/
def start (m : Manager) (fg : Bool) (w : World) : Except RefErr Unit × World :=
  match loadState m w with
  | .error e => (.error e, w)
  | .ok r =>
    if r.state = StateRunning ∧ 0 < r.pid ∧ processExists r.pid = true then
      (.error .alreadyRunning, w)
    else
      let r2 := { r with state := StateRunning, startedAt := some w.now, pid := w.pid }
      (.ok (), saveState m w r2)

/-- `Manager.Stop`: load; a record that is not `Running` is `ErrNotRunning`;
otherwise set `Stopped`, clear the PID and persist. (The interrupt signal
sent to a distinct recorded process is an external side effect with no
bearing on the record and is not modelled.) Note the source does not touch
`CurrentMR` here. -/
def stop (m : Manager) (w : World) : Except RefErr Unit × World :=
  match loadState m w with
  | .error e => (.error e, w)
  | .ok r =>
    if r.state ≠ StateRunning then
      (.error .notRunning, w)
    else
      let r2 := { r with state := StateStopped, pid := 0 }
      (.ok (), saveState m w r2)

/-! ## Branch discovery and parsing -/

/-- Whether `pat` occurs as a contiguous subsequence: `strings.Contains`. -/
def containsSeq (pat : List Char) : List Char → Bool
  | [] => pat.isEmpty
  | c :: cs => List.isPrefixOf pat (c :: cs) || containsSeq pat cs

/-- Strip a literal character prefix: `some` of the remainder exactly when
the prefix is present. -/
def dropLit : List Char → List Char → Option (List Char)
  | [], cs => some cs
  | _ :: _, [] => none
  | p :: ps, c :: cs => if c = p then dropLit ps cs else none

/-- Go `unicode.IsSpace` on the characters `strings.TrimSpace` can meet in
git output (the Latin-1 range of Go's White_Space property). -/
def goIsSpace (c : Char) : Bool :=
  c = ' ' ∨ c = '\t' ∨ c = '\n' ∨ c = '\x0B' ∨ c = '\x0C' ∨ c = '\r' ∨
    c = '\u0085' ∨ c = '\u00A0'

/-- `strings.TrimSpace`: drop whitespace from both ends. -/
def trimChars (cs : List Char) : List Char :=
  ((cs.dropWhile goIsSpace).reverse.dropWhile goIsSpace).reverse

/-- `strings.Split(out, "\n")`: the newline-separated chunks, with the empty
chunk after a trailing newline included, as in Go. -/
def splitLines : List Char → List (List Char)
  | [] => [[]]
  | c :: cs =>
    match splitLines cs with
    | [] => [[c]]
    | l :: ls => if c = '\n' then [] :: l :: ls else (c :: l) :: ls

/-- `strings.TrimPrefix(branch, "origin/")`. -/
def stripOriginChars (cs : List Char) : List Char :=
  match dropLit "origin/".data cs with
  | some r => r
  | none => cs

/-- The stdout-parsing loop of `discoverWorkBranches`: split on newlines,
trim each line, keep non-empty lines not containing `->` (symbolic refs
such as `origin/HEAD -> origin/main`), strip the `origin/` prefix. -/
def parseGitOut (out : String) : List String :=
  (splitLines out.data).filterMap fun line =>
    let branch := trimChars line
    if branch ≠ [] ∧ containsSeq "->".data branch = false then
      some (String.mk (stripOriginChars branch))
    else none

/-- The branch list `Manager.discoverWorkBranches` produces from the git
subprocess outcome (empty whenever the command failed). -/
def branchList : Except GitErr String → List String
  | .error _ => []
  | .ok out => parseGitOut out

/-- `Manager.discoverWorkBranches`: `cmd.Run()` returning an error is
answered with `return nil, nil` (the source comments it `// No remote
branches`) — every command failure, whatever its cause, becomes an empty
branch list and a nil error; a successful command has its stdout parsed. -/
def discoverWorkBranches (git : Except GitErr String) : Except RefErr (List String) :=
  match git with
  | .error _ => .ok []
  | .ok out => .ok (parseGitOut out)

/-- Split at the first `'/'`: `some (before, after)` when one occurs. -/
def splitAtSlash : List Char → Option (List Char × List Char)
  | [] => none
  | c :: cs =>
    if c = '/' then some ([], cs)
    else
      match splitAtSlash cs with
      | none => none
      | some (w, r) => some (c :: w, r)

/-- Matching of the Go regular expression `^polecat/([^/]+)(?:/(.+))?$` of
`branchToMR`: group 1 is the maximal slash-free segment after `polecat/`
(mandatory, non-empty), group 2 is everything after the following slash
(optional, non-empty when present, may itself contain slashes); group 2 is
`""` when absent, as `FindStringSubmatch` reports an unmatched group. -/
def polecatMatch (branch : String) : Option (String × String) :=
  match dropLit "polecat/".data branch.data with
  | none => none
  | some rest =>
    match splitAtSlash rest with
    | none => if rest = [] then none else some (String.mk rest, "")
    | some (w, r) => if w = [] ∨ r = [] then none else some (String.mk w, String.mk r)

/-- The identifier `fmt.Sprintf("mr-%s-%d", worker, time.Now().Unix())`
(Unix seconds are the nanosecond instant floor-divided by 10^9). -/
def mrId (worker : String) (now : Time) : String :=
  "mr-" ++ worker ++ "-" ++ toString (now / 1000000000)

/-- `Manager.branchToMR`: a branch that misses the pattern is `none` (and is
silently skipped by `Queue`); a match synthesizes a fresh pending merge
request targeting `"main"` with `CreatedAt` the discovery time. -/
def branchToMR (now : Time) (branch : String) : Option MergeRequest :=
  match polecatMatch branch with
  | none => none
  | some (worker, issueID) =>
    some { id := mrId worker now, branch := branch, worker := worker, issueID := issueID,
           swarmID := "", targetBranch := "main", createdAt := now,
           status := MRPending, error := "" }

/-! ## Queue building and age formatting -/

/-- Go `time.Minute`, `time.Hour` and one day, in nanoseconds. -/
def nsPerSecond : Int := 1000000000

/-- Nanoseconds per minute. -/
def nsPerMinute : Int := 60000000000

/-- Nanoseconds per hour. -/
def nsPerHour : Int := 3600000000000

/-- Nanoseconds per day (`24 * time.Hour`). -/
def nsPerDay : Int := 86400000000000

/-- `formatAge`: bucket the elapsed duration `now - t` and print the whole
count of the bucket unit, truncated toward zero (`Int.tdiv` models Go's
`int(...)` conversion of the exact quotient; `int(d.Hours()/24)` is the
truncation toward zero of `d / nsPerDay`). -/
def formatAge (now t : Time) : String :=
  let d := now - t
  if d < nsPerMinute then toString (d.tdiv nsPerSecond) ++ "s ago"
  else if d < nsPerHour then toString (d.tdiv nsPerMinute) ++ "m ago"
  else if d < nsPerDay then toString (d.tdiv nsPerHour) ++ "h ago"
  else toString (d.tdiv nsPerDay) ++ "d ago"

/-- The discovered-branch loop of `Manager.Queue`: one item per branch
accepted by `branchToMR`, positions counted up from `pos` (the source's
mutable `pos`, started at 1), rejected branches skipped silently. -/
def pendingItems (now : Time) : Nat → List String → List QueueItem
  | _, [] => []
  | pos, b :: bs =>
    match branchToMR now b with
    | some mr => ⟨pos, mr, formatAge now mr.createdAt⟩ :: pendingItems now (pos + 1) bs
    | none => pendingItems now pos bs

/-- The head of `Manager.Queue`'s item list: the record's current merge
request at position 0 when present. -/
def currentItems (now : Time) (r : Refinery) : List QueueItem :=
  match r.currentMR with
  | some mr => [⟨0, mr, formatAge now mr.createdAt⟩]
  | none => []

/-- The item list `Manager.Queue` builds from the loaded record and the
discovered branches. -/
def queueItems (now : Time) (r : Refinery) (branches : List String) : List QueueItem :=
  currentItems now r ++ pendingItems now 1 branches

/-- `Manager.Queue`: discover work branches (propagating a discovery error,
though `discoverWorkBranches` never produces one), load the record
(propagating its errors), and build the display queue. Read-only: the world
is unchanged. -/
def queue (m : Manager) (w : World) : Except RefErr (List QueueItem) × World :=
  match discoverWorkBranches w.git with
  | .error e => (.error e, w)
  | .ok branches =>
    match loadState m w with
    | .error e => (.error e, w)
    | .ok r => (.ok (queueItems w.now r branches), w)

/-! ## Invariants of the data model (spec section 3) -/

/-- The provable half of the spec's record invariant: a `stopped` record has
no owning process identifier. -/
def pidInv (r : Refinery) : Prop :=
  r.state = StateStopped → r.pid = 0

/-- The spec's full record invariant: a `stopped` record has no owning
process identifier and no current merge request. -/
def stoppedInv (r : Refinery) : Prop :=
  r.state = StateStopped → (r.pid = 0 ∧ r.currentMR = none)

/-! ## Concrete scenarios used by witnesses and counterexamples -/

/-- A running record with a recorded PID, for the self-healing scenario. -/
def c1r : Refinery :=
  ⟨"demo", StateRunning, 7, some 5, none, some 3, ⟨1, 2, 3, 4, 5⟩⟩

/-- Manager of the self-healing scenario. -/
def c1m : Manager := ⟨⟨"demo", "/rigs/demo"⟩⟩

/-- World of the self-healing scenario: the stored record is `c1r` (the
probe reports its process dead, as it does every process). -/
def c1w : World :=
  { store := some (encodeRefinery c1r), pid := 9,
    now := 100, git := Except.ok "" }

/-- A running record with a recorded PID of an actually-alive process: the
failing input of the dead `AlreadyRunning` guard. -/
def c2r : Refinery :=
  ⟨"demo", StateRunning, 7, some 5, none, none, ⟨0, 0, 0, 0, 0⟩⟩

/-- Manager of the start-on-live-agent scenario. -/
def c2m : Manager := ⟨⟨"demo", "/rigs/demo"⟩⟩

/-- World of the start-on-live-agent scenario. -/
def c2w : World :=
  { store := some (encodeRefinery c2r), pid := 42,
    now := 1000, git := Except.ok "" }

/-- A running record with a recorded, distinct PID, for the stop scenario. -/
def c3r : Refinery :=
  ⟨"demo", StateRunning, 8, some 5, none, none, ⟨0, 0, 0, 0, 0⟩⟩

/-- Manager of the stop scenario. -/
def c3m : Manager := ⟨⟨"demo", "/rigs/demo"⟩⟩

/-- World of the stop scenario. -/
def c3w : World :=
  { store := some (encodeRefinery c3r), pid := 9,
    now := 1000, git := Except.ok "" }

/-- The in-flight merge request of the queue-ordering scenario. -/
def c4mr : MergeRequest :=
  ⟨"cur", "polecat/w0", "w0", "", "", "main", 0, MRProcessing, ""⟩

/-- A running record carrying `c4mr` as its current merge request. -/
def c4r : Refinery :=
  ⟨"demo", StateRunning, 0, none, some c4mr, none, ⟨0, 0, 0, 0, 0⟩⟩

/-- Manager of the queue-ordering scenario. -/
def c4m : Manager := ⟨⟨"demo", "/rigs/demo"⟩⟩

/-- World of the queue-ordering scenario: git lists the two work branches of
the spec's example. -/
def c4w : World :=
  { store := some (encodeRefinery c4r), pid := 9,
    now := 0, git := Except.ok "  origin/polecat/w1/iss1\n  origin/polecat/w2\n" }

/-- Manager of the discovery-failure scenario. -/
def c6m : Manager := ⟨⟨"demo", "/rigs/demo"⟩⟩

/-- World of the discovery-failure scenario: no state file, and the git
subprocess fails with a connectivity error. -/
def c6w : World :=
  { store := none, pid := 1, now := 0,
    git := Except.error GitErr.connectivity }

/-- A current merge request sitting in a running record, for the
stop-keeps-current-request counterexample. -/
def c8mr : MergeRequest :=
  ⟨"mr-x-0", "polecat/x", "x", "", "", "main", 0, MRProcessing, ""⟩

/-- A running record (no PID) carrying `c8mr`. -/
def c8r : Refinery :=
  ⟨"demo", StateRunning, 0, none, some c8mr, none, ⟨0, 0, 0, 0, 0⟩⟩

/-- Manager of the invariant scenarios. -/
def c8m : Manager := ⟨⟨"demo", "/rigs/demo"⟩⟩

/-- World whose stored record is `c8r`. -/
def c8w : World :=
  { store := some (encodeRefinery c8r), pid := 5,
    now := 0, git := Except.ok "" }

/-- World with no state file, for the invariant witness. -/
def c8w2 : World :=
  { store := none, pid := 5, now := 0,
    git := Except.ok "" }

/-- Manager of the caller-pid scenario. -/
def c10m : Manager := ⟨⟨"demo", "/rigs/demo"⟩⟩

/-- World with no state file, for the caller-pid scenario (background
mode leaves the caller's own PID in the record). -/
def c10w : World :=
  { store := none, pid := 77, now := 50,
    git := Except.ok "" }

/-! ## Serialization round trip -/

theorem decodeMR_encodeMR (mr : MergeRequest) : decodeMR (encodeMR mr) = some mr := by
  obtain ⟨id, br, wk, iss, sw, tb, ca, st, er⟩ := mr
  by_cases hs : sw = "" <;> by_cases he : er = "" <;>
    simp [encodeMR, decodeMR, getStr, getInt, jlookup, hs, he]

theorem decodeStats_encodeStats (s : RefineryStats) :
    decodeStats (encodeStats s) = some s := by
  simp [encodeStats, decodeStats, getInt, jlookup]

theorem decodeRefinery_encodeRefinery (r : Refinery) :
    decodeRefinery (encodeRefinery r) = some r := by
  obtain ⟨rn, st, pid, sa, cmr, lma, stats⟩ := r
  by_cases hp : pid = 0 <;>
    rcases sa with _ | t1 <;>
    rcases cmr with _ | mr <;>
    rcases lma with _ | t2 <;>
    simp [encodeRefinery, decodeRefinery, getStr, getInt, getOptNum, jlookup, hp,
      decodeMR_encodeMR, decodeStats_encodeStats]

theorem loadState_saveState (m m' : Manager) (w : World) (r : Refinery) :
    loadState m' (saveState m w r) = Except.ok r := by
  simp [loadState, saveState, decodeRefinery_encodeRefinery]

theorem loadState_store_encode (m : Manager) (w : World) (r : Refinery)
    (h : w.store = some (encodeRefinery r)) : loadState m w = Except.ok r := by
  simp [loadState, h, decodeRefinery_encodeRefinery]

theorem saveState_now (m : Manager) (w : World) (r : Refinery) :
    (saveState m w r).now = w.now := rfl

theorem saveState_pid (m : Manager) (w : World) (r : Refinery) :
    (saveState m w r).pid = w.pid := rfl

/-- C7: for every agent record — in particular one with all optional fields
(PID, start timestamp, current merge request, last-merge timestamp, error
detail) populated — saving it to the state store and loading it back
reproduces every field exactly. -/
theorem save_load_roundtrip (m : Manager) (w : World) (r : Refinery) :
    loadState m (saveState m w r) = Except.ok r :=
  loadState_saveState m m w r

/-! ## Lifecycle operations -/

/-- C1: a stored `Running` record whose recorded (positive) process
identifier fails the liveness check is returned by `Status` corrected to
`Stopped` with the identifier cleared, and the correction is persisted
before `Status` returns: a subsequent load observes the corrected record. -/
theorem status_self_heals (m : Manager) (w : World) (r : Refinery)
    (h : loadState m w = Except.ok r) (hrun : r.state = StateRunning)
    (hpid : 0 < r.pid) (hdead : processExists r.pid = false) :
    (status m w).1 = Except.ok { r with state := StateStopped, pid := 0 } ∧
    loadState m (status m w).2 = Except.ok { r with state := StateStopped, pid := 0 } := by
  have hc : r.state = StateRunning ∧ 0 < r.pid ∧ processExists r.pid = false :=
    ⟨hrun, hpid, hdead⟩
  simp [status, h, hc, loadState_saveState]

theorem status_self_heals_witness :
    (loadState c1m c1w = Except.ok c1r ∧ c1r.state = StateRunning ∧
      0 < c1r.pid ∧ processExists c1r.pid = false) ∧
    ((status c1m c1w).1 = Except.ok { c1r with state := StateStopped, pid := 0 } ∧
      loadState c1m (status c1m c1w).2 =
        Except.ok { c1r with state := StateStopped, pid := 0 }) :=
  ⟨⟨loadState_store_encode c1m c1w c1r rfl, rfl, by decide, rfl⟩,
    status_self_heals c1m c1w c1r
      (loadState_store_encode c1m c1w c1r rfl) rfl (by decide) rfl⟩

/-- C2: the claim's iff is false of the code — `Start` can never fail with
`ErrAlreadyRunning`. The guard requires `processExists(ref.PID)`, but the
probe passes a nil `os.Signal` to `proc.Signal` and so returns false for
every pid (see `processExists`), even when the recorded process is
genuinely alive; the source's own comment, `signal 0 tests existence`,
states the intended behavior the code misses. Evaluated at the failing
input — a stored `Running` record with pid 7 whose process is actually
alive — Start in either mode succeeds, re-stamps the start time and
overwrites the owner with the caller's pid, where the claim (and the spec's
Start → Start property) require `ErrAlreadyRunning`. -/
theorem start_never_already_running :
    processExists c2r.pid = false ∧
    loadState c2m c2w = Except.ok c2r ∧
    c2r.state = StateRunning ∧ 0 < c2r.pid ∧
    (start c2m false c2w).1 = Except.ok () ∧
    (start c2m true c2w).1 = Except.ok () ∧
    loadState c2m (start c2m false c2w).2 =
      Except.ok { c2r with state := StateRunning, startedAt := some c2w.now, pid := c2w.pid } :=
  ⟨rfl, loadState_store_encode c2m c2w c2r rfl, rfl, by decide, rfl, rfl, rfl⟩

/-- C3: given a loadable record, `Stop` fails with `ErrNotRunning` exactly
when the record's state is not `Running` (so also on `Stopped` and
`Paused`); on a `Running` record it succeeds, sets `Stopped`, clears the
owning process identifier and persists the updated record. -/
theorem stop_spec (m : Manager) (w : World) (r : Refinery)
    (h : loadState m w = Except.ok r) :
    ((stop m w).1 = Except.error RefErr.notRunning ↔ r.state ≠ StateRunning) ∧
    (r.state = StateRunning →
      (stop m w).1 = Except.ok () ∧
      loadState m (stop m w).2 =
        Except.ok { r with state := StateStopped, pid := 0 }) := by
  constructor
  · by_cases hr : r.state = StateRunning <;> simp [stop, h, hr]
  · intro hr
    simp [stop, h, hr, loadState_saveState]

theorem stop_spec_witness :
    (loadState c3m c3w = Except.ok c3r) ∧
    (((stop c3m c3w).1 = Except.error RefErr.notRunning ↔ c3r.state ≠ StateRunning) ∧
      (c3r.state = StateRunning →
        (stop c3m c3w).1 = Except.ok () ∧
        loadState c3m (stop c3m c3w).2 =
          Except.ok { c3r with state := StateStopped, pid := 0 })) :=
  ⟨loadState_store_encode c3m c3w c3r rfl,
    stop_spec c3m c3w c3r (loadState_store_encode c3m c3w c3r rfl)⟩

/-- C10: every `Start` on a loadable record succeeds — the `AlreadyRunning`
guard cannot fire, since the liveness probe is constantly false — and, with
`foreground` true or false alike, the persisted record's owning process
identifier is the calling process's own `os.Getpid()`: the background path
of the MVP spawns no daemon and records no other process's identifier. -/
theorem start_records_caller_pid (m : Manager) (w : World) (fg : Bool) (r : Refinery)
    (h : loadState m w = Except.ok r) :
    (start m fg w).1 = Except.ok () ∧
    ∀ r', loadState m (start m fg w).2 = Except.ok r' → r'.pid = w.pid := by
  have hn : ¬ (r.state = StateRunning ∧ 0 < r.pid ∧ processExists r.pid = true) := by
    simp [processExists]
  constructor
  · simp [start, h, hn]
  · intro r' h'
    have hl : loadState m (start m fg w).2 =
        Except.ok { r with state := StateRunning, startedAt := some w.now, pid := w.pid } := by
      simp [start, h, hn, loadState_saveState]
    rw [hl] at h'
    cases h'
    rfl

theorem start_records_caller_pid_witness :
    (loadState c10m c10w = Except.ok (defaultRefinery "demo")) ∧
    ((start c10m true c10w).1 = Except.ok () ∧
      ∀ r', loadState c10m (start c10m true c10w).2 = Except.ok r' → r'.pid = c10w.pid) :=
  ⟨rfl, start_records_caller_pid c10m c10w true (defaultRefinery "demo") rfl⟩

/-! ## Queue ordering -/

theorem discoverWorkBranches_eq (g : Except GitErr String) :
    discoverWorkBranches g = Except.ok (branchList g) := by
  cases g <;> rfl

theorem pendingItems_eq_mapIdx (now : Time) (bs : List String) (p : Nat) :
    pendingItems now p bs =
      (bs.filterMap (branchToMR now)).mapIdx
        (fun i mr => ⟨p + i, mr, formatAge now mr.createdAt⟩) := by
  induction bs generalizing p with
  | nil => simp [pendingItems]
  | cons b bs ih =>
    cases hb : branchToMR now b with
    | none => simp [pendingItems, hb, ih]
    | some mr =>
      simp only [pendingItems, hb, List.filterMap_cons, List.mapIdx_cons, Nat.add_zero,
        ih (p + 1)]
      have hf : (fun i (mr : MergeRequest) =>
            (⟨p + 1 + i, mr, formatAge now mr.createdAt⟩ : QueueItem)) =
          (fun i mr => ⟨p + (i + 1), mr, formatAge now mr.createdAt⟩) := by
        funext i a
        simp [Nat.add_assoc, Nat.add_comm 1 i]
      rw [hf]

/-- C4: for every loadable agent record and the discovered branch sequence,
`Queue` emits the record's current merge request first at position 0 when
one is present, then one item per branch accepted by `branchToMR`, in
discovery order, at consecutive positions 1..N; acceptance ignores the
current request entirely, so a discovered branch naming the same source
branch as the current request is not suppressed. -/
theorem queue_order (m : Manager) (w : World) (r : Refinery)
    (h : loadState m w = Except.ok r) :
    (queue m w).1 = Except.ok (
      (match r.currentMR with
       | some mr => [(⟨0, mr, formatAge w.now mr.createdAt⟩ : QueueItem)]
       | none => []) ++
      ((branchList w.git).filterMap (branchToMR w.now)).mapIdx
        (fun i mr => ⟨1 + i, mr, formatAge w.now mr.createdAt⟩)) := by
  simp [queue, discoverWorkBranches_eq, h, queueItems, currentItems,
    pendingItems_eq_mapIdx]

theorem queue_order_witness :
    (loadState c4m c4w = Except.ok c4r) ∧
    (queue c4m c4w).1 = Except.ok
      [⟨0, c4mr, "0s ago"⟩,
       ⟨1, ⟨"mr-w1-0", "polecat/w1/iss1", "w1", "iss1", "", "main", 0, MRPending, ""⟩, "0s ago"⟩,
       ⟨2, ⟨"mr-w2-0", "polecat/w2", "w2", "", "", "main", 0, MRPending, ""⟩, "0s ago"⟩] :=
  ⟨loadState_store_encode c4m c4w c4r rfl,
    (queue_order c4m c4w c4r (loadState_store_encode c4m c4w c4r rfl)).trans
      (congrArg Except.ok (by decide))⟩

/-! ## Branch-name parsing -/

theorem dropLit_eq_some (ps : List Char) :
    ∀ cs r, dropLit ps cs = some r ↔ cs = ps ++ r := by
  induction ps with
  | nil =>
    intro cs r
    simp [dropLit, eq_comm]
  | cons p ps ih =>
    intro cs r
    cases cs with
    | nil => simp [dropLit]
    | cons c cs' =>
      by_cases hc : c = p
      · subst hc
        simp [dropLit, ih]
      · simp [dropLit, hc]

theorem splitAtSlash_eq_none (cs : List Char) :
    splitAtSlash cs = none ↔ '/' ∉ cs := by
  induction cs with
  | nil => simp [splitAtSlash]
  | cons c cs ih =>
    by_cases hc : c = '/'
    · subst hc
      simp [splitAtSlash]
    · cases hs : splitAtSlash cs with
      | none =>
        simp_all [splitAtSlash]
        exact fun h => hc h.symm
      | some pr =>
        obtain ⟨w, r⟩ := pr
        simp_all [splitAtSlash]

theorem splitAtSlash_eq_some (cs : List Char) :
    ∀ w r, splitAtSlash cs = some (w, r) ↔ (cs = w ++ '/' :: r ∧ '/' ∉ w) := by
  induction cs with
  | nil =>
    intro w r
    constructor
    · intro h
      simp [splitAtSlash] at h
    · rintro ⟨h1, _⟩
      cases w <;> simp at h1
  | cons c cs ih =>
    intro w r
    by_cases hc : c = '/'
    · subst hc
      constructor
      · intro h
        simp [splitAtSlash] at h
        obtain ⟨hw, hr⟩ := h
        subst hw
        subst hr
        simp
      · rintro ⟨h1, h2⟩
        cases w with
        | nil =>
          simp at h1
          simp [splitAtSlash, h1]
        | cons a w' =>
          simp at h1
          exact absurd (by simp [h1.1.symm] : ('/' : Char) ∈ a :: w') h2
    · cases hs : splitAtSlash cs with
      | none =>
        have hnotin := (splitAtSlash_eq_none cs).mp hs
        constructor
        · intro h
          simp [splitAtSlash, hc, hs] at h
        · rintro ⟨h1, h2⟩
          cases w with
          | nil =>
            simp at h1
            exact absurd h1.1 hc
          | cons a w' =>
            simp at h1
            exact absurd (by rw [h1.2]; simp : ('/' : Char) ∈ cs) hnotin
      | some pr =>
        obtain ⟨w0, r0⟩ := pr
        have hdec := (ih w0 r0).mp hs
        constructor
        · intro h
          simp [splitAtSlash, hc, hs] at h
          obtain ⟨hw, hr⟩ := h
          subst hw
          subst hr
          refine ⟨by simp [hdec.1], ?_⟩
          simp only [List.mem_cons, not_or]
          exact ⟨fun hx => hc hx.symm, hdec.2⟩
        · rintro ⟨h1, h2⟩
          cases w with
          | nil =>
            simp at h1
            exact absurd h1.1 hc
          | cons a w' =>
            simp at h1
            obtain ⟨hca, hcs⟩ := h1
            have h2' : '/' ∉ w' := fun hx => h2 (by simp [hx])
            have huniq : splitAtSlash cs = some (w', r) := (ih w' r).mpr ⟨hcs, h2'⟩
            rw [hs] at huniq
            have hww : w0 = w' ∧ r0 = r := by
              have := Option.some.inj huniq
              exact ⟨congrArg Prod.fst this, congrArg Prod.snd this⟩
            simp [splitAtSlash, hc, hs, hca, hww.1, hww.2]
            exact fun h => hc (hca.trans h)

theorem polecatMatch_iff (b : String) (wk iss : String) :
    polecatMatch b = some (wk, iss) ↔
      ∃ w i : List Char, wk = String.mk w ∧ iss = String.mk i ∧ w ≠ [] ∧ '/' ∉ w ∧
        ((b.data = "polecat/".data ++ w ∧ i = []) ∨
         (b.data = "polecat/".data ++ w ++ '/' :: i ∧ i ≠ [])) := by
  cases hd : dropLit "polecat/".data b.data with
  | none =>
    constructor
    · intro h
      simp [polecatMatch, hd] at h
    · rintro ⟨w, i, hwk, hiss, hw, hsl, hcase⟩
      rcases hcase with ⟨hb, hi⟩ | ⟨hb, hi⟩
      · have : dropLit "polecat/".data b.data = some w :=
          (dropLit_eq_some _ _ _).mpr hb
        simp [hd] at this
      · have : dropLit "polecat/".data b.data = some (w ++ '/' :: i) :=
          (dropLit_eq_some _ _ _).mpr (by rw [hb, List.append_assoc])
        simp [hd] at this
  | some rest =>
    have hbdata : b.data = "polecat/".data ++ rest := (dropLit_eq_some _ _ _).mp hd
    cases hs : splitAtSlash rest with
    | none =>
      have hnoslash := (splitAtSlash_eq_none rest).mp hs
      by_cases hrest : rest = []
      · subst hrest
        constructor
        · intro h
          simp [polecatMatch, hd, hs] at h
        · rintro ⟨w, i, hwk, hiss, hw, hsl, hcase⟩
          rcases hcase with ⟨hb, hi⟩ | ⟨hb, hi⟩
          · rw [hbdata] at hb
            have hwnil : ([] : List Char) = w := (List.append_right_inj _).mp hb
            exact (hw hwnil.symm).elim
          · rw [hbdata, List.append_assoc] at hb
            have hnil : ([] : List Char) = w ++ '/' :: i := (List.append_right_inj _).mp hb
            simp at hnil
      · constructor
        · intro h
          simp [polecatMatch, hd, hs, hrest] at h
          exact ⟨rest, [], h.1.symm, h.2.symm, hrest, hnoslash, Or.inl ⟨hbdata, rfl⟩⟩
        · rintro ⟨w, i, hwk, hiss, hw, hsl, hcase⟩
          rcases hcase with ⟨hb, hi⟩ | ⟨hb, hi⟩
          · rw [hbdata] at hb
            have hwrest : rest = w := (List.append_right_inj _).mp hb
            subst hwrest
            subst hi
            simp [polecatMatch, hd, hs, hrest, hwk, hiss]
          · rw [hbdata, List.append_assoc] at hb
            have : rest = w ++ '/' :: i := (List.append_right_inj _).mp hb
            exact absurd (by rw [this]; simp : ('/' : Char) ∈ rest) hnoslash
    | some pr =>
      obtain ⟨w0, r0⟩ := pr
      have hdec := (splitAtSlash_eq_some rest w0 r0).mp hs
      by_cases h0 : w0 = [] ∨ r0 = []
      · constructor
        · intro h
          simp [polecatMatch, hd, hs, h0] at h
        · rintro ⟨w, i, hwk, hiss, hw, hsl, hcase⟩
          rcases hcase with ⟨hb, hi⟩ | ⟨hb, hi⟩
          · rw [hbdata] at hb
            have hwrest : rest = w := (List.append_right_inj _).mp hb
            exact absurd (by rw [hdec.1]; simp : ('/' : Char) ∈ rest) (hwrest ▸ hsl)
          · rw [hbdata, List.append_assoc] at hb
            have hrest : rest = w ++ '/' :: i := (List.append_right_inj _).mp hb
            have : splitAtSlash rest = some (w, i) :=
              (splitAtSlash_eq_some rest w i).mpr ⟨hrest, hsl⟩
            rw [hs] at this
            have hinj := Option.some.inj this
            have hww : w0 = w := congrArg Prod.fst hinj
            have hrr : r0 = i := congrArg Prod.snd hinj
            rcases h0 with h0 | h0
            · exact (hw (hww ▸ h0)).elim
            · exact (hi (hrr ▸ h0)).elim
      · push_neg at h0
        constructor
        · intro h
          simp [polecatMatch, hd, hs, h0.1, h0.2] at h
          exact ⟨w0, r0, h.1.symm, h.2.symm, h0.1, hdec.2,
            Or.inr ⟨by rw [hbdata, hdec.1, List.append_assoc], h0.2⟩⟩
        · rintro ⟨w, i, hwk, hiss, hw, hsl, hcase⟩
          rcases hcase with ⟨hb, hi⟩ | ⟨hb, hi⟩
          · rw [hbdata] at hb
            have hwrest : rest = w := (List.append_right_inj _).mp hb
            exact absurd (by rw [hdec.1]; simp : ('/' : Char) ∈ rest) (hwrest ▸ hsl)
          · rw [hbdata, List.append_assoc] at hb
            have hrest : rest = w ++ '/' :: i := (List.append_right_inj _).mp hb
            have : splitAtSlash rest = some (w, i) :=
              (splitAtSlash_eq_some rest w i).mpr ⟨hrest, hsl⟩
            rw [hs] at this
            have hinj := Option.some.inj this
            have hww : w0 = w := congrArg Prod.fst hinj
            have hrr : r0 = i := congrArg Prod.snd hinj
            subst hww
            subst hrr
            simp [polecatMatch, hd, hs, h0.1, h0.2, hwk, hiss]

/-- C5: a branch name is accepted by `branchToMR` exactly when it has the
form `polecat/<worker>` or `polecat/<worker>/<issue>` with a non-empty,
slash-free worker segment (and a non-empty issue part); an accepted branch
yields a merge request with that worker, that issue (empty when absent),
status `pending` and the default target branch `main`; a malformed name
such as `"not-a-worker-branch"` is silently excluded (`none`), not an
error. -/
theorem branchToMR_spec (now : Time) :
    (∀ (b : String) (mr : MergeRequest),
      branchToMR now b = some mr ↔
        ∃ w i : List Char, w ≠ [] ∧ '/' ∉ w ∧
          ((b.data = "polecat/".data ++ w ∧ i = []) ∨
           (b.data = "polecat/".data ++ w ++ '/' :: i ∧ i ≠ [])) ∧
          mr = { id := mrId (String.mk w) now, branch := b, worker := String.mk w,
                 issueID := String.mk i, swarmID := "", targetBranch := "main",
                 createdAt := now, status := MRPending, error := "" }) ∧
    branchToMR now "not-a-worker-branch" = none := by
  constructor
  · intro b mr
    constructor
    · intro h
      cases hp : polecatMatch b with
      | none => simp [branchToMR, hp] at h
      | some pr =>
        obtain ⟨wk, iss⟩ := pr
        simp [branchToMR, hp] at h
        obtain ⟨w, i, hwk, hiss, hw, hsl, hcase⟩ := (polecatMatch_iff b wk iss).mp hp
        subst hwk
        subst hiss
        exact ⟨w, i, hw, hsl, hcase, h.symm⟩
    · rintro ⟨w, i, hw, hsl, hcase, hmr⟩
      have hp : polecatMatch b = some (String.mk w, String.mk i) :=
        (polecatMatch_iff b _ _).mpr ⟨w, i, rfl, rfl, hw, hsl, hcase⟩
      simp [branchToMR, hp, hmr]
  · rfl

/-! ## Age formatting -/

theorem tdiv_eq_ediv_of_nonneg (a b : Int) (ha : 0 ≤ a) (hb : 0 ≤ b) :
    a.tdiv b = a / b :=
  Int.tdiv_eq_ediv ha hb

/-- C9: for every past timestamp, `formatAge` buckets the elapsed duration —
whole seconds under one minute, whole minutes under one hour, whole hours
under one day, otherwise whole days — and the printed count `n` always
satisfies `n * unit ≤ elapsed < (n + 1) * unit`, i.e. it is the exact
quotient truncated toward zero, never rounded (45 s prints `"45s ago"`,
90 min prints `"1h ago"`, 3 days prints `"3d ago"`). -/
theorem formatAge_buckets (now t : Int) (h : t ≤ now) :
    (now - t < nsPerMinute →
      ∃ s, formatAge now t = toString s ++ "s ago" ∧
        s * nsPerSecond ≤ now - t ∧ now - t < (s + 1) * nsPerSecond) ∧
    (nsPerMinute ≤ now - t → now - t < nsPerHour →
      ∃ mn, formatAge now t = toString mn ++ "m ago" ∧
        mn * nsPerMinute ≤ now - t ∧ now - t < (mn + 1) * nsPerMinute) ∧
    (nsPerHour ≤ now - t → now - t < nsPerDay →
      ∃ hr, formatAge now t = toString hr ++ "h ago" ∧
        hr * nsPerHour ≤ now - t ∧ now - t < (hr + 1) * nsPerHour) ∧
    (nsPerDay ≤ now - t →
      ∃ dy, formatAge now t = toString dy ++ "d ago" ∧
        dy * nsPerDay ≤ now - t ∧ now - t < (dy + 1) * nsPerDay) := by
  have h0 : 0 ≤ now - t := by omega
  have es : (now - t).tdiv nsPerSecond = (now - t) / 1000000000 :=
    tdiv_eq_ediv_of_nonneg _ _ h0 (by norm_num [nsPerSecond])
  have em : (now - t).tdiv nsPerMinute = (now - t) / 60000000000 :=
    tdiv_eq_ediv_of_nonneg _ _ h0 (by norm_num [nsPerMinute])
  have eh : (now - t).tdiv nsPerHour = (now - t) / 3600000000000 :=
    tdiv_eq_ediv_of_nonneg _ _ h0 (by norm_num [nsPerHour])
  have ed : (now - t).tdiv nsPerDay = (now - t) / 86400000000000 :=
    tdiv_eq_ediv_of_nonneg _ _ h0 (by norm_num [nsPerDay])
  refine ⟨fun hb => ?_, fun hb1 hb2 => ?_, fun hb1 hb2 => ?_, fun hb => ?_⟩
  · refine ⟨(now - t) / 1000000000, ?_, ?_, ?_⟩
    · simp [formatAge, hb, es]
    · simp only [nsPerSecond]
      omega
    · simp only [nsPerSecond]
      omega
  · refine ⟨(now - t) / 60000000000, ?_, ?_, ?_⟩
    · have hnb : ¬ (now - t < nsPerMinute) := by omega
      simp [formatAge, hnb, hb2, em]
    · simp only [nsPerMinute]
      omega
    · simp only [nsPerMinute]
      omega
  · refine ⟨(now - t) / 3600000000000, ?_, ?_, ?_⟩
    · have hnb1 : ¬ (now - t < nsPerMinute) := by
        simp only [nsPerMinute, nsPerHour] at hb1 ⊢
        omega
      have hnb2 : ¬ (now - t < nsPerHour) := by omega
      simp [formatAge, hnb1, hnb2, hb2, eh]
    · simp only [nsPerHour]
      omega
    · simp only [nsPerHour]
      omega
  · refine ⟨(now - t) / 86400000000000, ?_, ?_, ?_⟩
    · have hnb1 : ¬ (now - t < nsPerMinute) := by
        simp only [nsPerMinute, nsPerDay] at hb ⊢
        omega
      have hnb2 : ¬ (now - t < nsPerHour) := by
        simp only [nsPerHour, nsPerDay] at hb ⊢
        omega
      have hnb3 : ¬ (now - t < nsPerDay) := by omega
      simp [formatAge, hnb1, hnb2, hnb3, ed]
    · simp only [nsPerDay]
      omega
    · simp only [nsPerDay]
      omega

theorem formatAge_buckets_witness :
    ((0 : Int) ≤ 45000000000 ∧
      (45000000000 - (0 : Int) < nsPerMinute →
        ∃ s, formatAge 45000000000 0 = toString s ++ "s ago" ∧
          s * nsPerSecond ≤ 45000000000 - (0 : Int) ∧
          45000000000 - (0 : Int) < (s + 1) * nsPerSecond)) ∧
    formatAge 45000000000 0 = "45s ago" ∧
    formatAge 5400000000000 0 = "1h ago" ∧
    formatAge 259200000000000 0 = "3d ago" :=
  ⟨⟨by decide, (formatAge_buckets 45000000000 0 (by decide)).1⟩, rfl, rfl, rfl⟩

/-! ## Discovery failures and the record invariant -/

/-- C6 counterexample: a connectivity failure of the underlying git command
is not surfaced as an error — `discoverWorkBranches` answers `cmd.Run()`'s
error with `return nil, nil`, so it reports a successful empty branch list,
and `Queue` on such a world likewise returns a successful (empty) queue
instead of propagating a discovery error. -/
theorem discovery_failure_swallowed :
    discoverWorkBranches (Except.error GitErr.connectivity) = Except.ok [] ∧
    (discoverWorkBranches (Except.error GitErr.connectivity)).isOk = true ∧
    (queue c6m c6w).1 = Except.ok [] ∧
    ((queue c6m c6w).1).isOk = true :=
  ⟨rfl, rfl, rfl, rfl⟩

/-- C6 (amended): branch discovery returns an empty sequence rather than an
error both when no remote exists (the command succeeds with empty output)
and when the underlying command fails for any reason — including
connectivity or permission failures, which the code folds into the same
empty answer instead of surfacing as a distinct error; consequently the
queue query never receives a discovery error and, for any loadable record,
returns a queue built from the (possibly empty) discovered list. -/
theorem discoverWorkBranches_never_errors :
    (∀ g, discoverWorkBranches g = Except.ok (branchList g)) ∧
    (∀ e, discoverWorkBranches (Except.error e) = Except.ok []) ∧
    discoverWorkBranches (Except.ok "") = Except.ok [] ∧
    (∀ (m : Manager) (w : World) (r : Refinery), loadState m w = Except.ok r →
      (queue m w).1 = Except.ok (queueItems w.now r (branchList w.git))) := by
  refine ⟨discoverWorkBranches_eq, fun e => rfl, rfl, fun m w r h => ?_⟩
  simp [queue, discoverWorkBranches_eq, h]

theorem discoverWorkBranches_never_errors_witness :
    (loadState c6m c6w = Except.ok (defaultRefinery "demo")) ∧
    (queue c6m c6w).1 =
      Except.ok (queueItems c6w.now (defaultRefinery "demo") (branchList c6w.git)) :=
  ⟨rfl, discoverWorkBranches_never_errors.2.2.2 c6m c6w (defaultRefinery "demo") rfl⟩

/-- C8 counterexample: `Stop` does not clear `CurrentMR`. Stopping a stored
`Running` record that carries a current merge request succeeds and persists
a record whose state is `Stopped` but whose current merge request is still
present — violating the claimed invariant for a record written by `Stop`. -/
theorem stop_keeps_current_mr :
    (stop c8m c8w).1 = Except.ok () ∧
    loadState c8m (stop c8m c8w).2 =
      Except.ok { c8r with state := StateStopped, pid := 0 } ∧
    ({ c8r with state := StateStopped, pid := 0 } : Refinery).state = StateStopped ∧
    ({ c8r with state := StateStopped, pid := 0 } : Refinery).currentMR.isSome = true :=
  ⟨rfl, rfl, rfl, rfl⟩

/-- C8 (amended): the default record satisfies the full invariant (`Stopped`
implies no PID and no current merge request); every record persisted by
`Start`, `Stop`, or the self-healing `Status` write satisfies the PID half
of the invariant, and none of these writers ever sets a current merge
request, so whenever the loaded record carries none — as holds for every
record the operations themselves produce starting from the default — the
persisted record satisfies the full invariant as well. `Stop` alone does
not clear a pre-existing current merge request, the sole gap (see the
counterexample). -/
theorem lifecycle_writes_inv (m : Manager) (w : World) (r : Refinery)
    (h : loadState m w = Except.ok r) :
    stoppedInv (defaultRefinery m.rig.name) ∧
    (∀ fg r', (start m fg w).1 = Except.ok () →
      loadState m (start m fg w).2 = Except.ok r' →
      r'.currentMR = r.currentMR ∧ pidInv r' ∧ (r.currentMR = none → stoppedInv r')) ∧
    (∀ r', (stop m w).1 = Except.ok () →
      loadState m (stop m w).2 = Except.ok r' →
      r'.currentMR = r.currentMR ∧ pidInv r' ∧ (r.currentMR = none → stoppedInv r')) ∧
    (r.state = StateRunning → 0 < r.pid → processExists r.pid = false →
      ∀ r', loadState m (status m w).2 = Except.ok r' →
      r'.currentMR = r.currentMR ∧ pidInv r' ∧ (r.currentMR = none → stoppedInv r')) := by
  refine ⟨fun _ => ⟨rfl, rfl⟩, ?_, ?_, ?_⟩
  · intro fg r' hok hload
    by_cases hc : r.state = StateRunning ∧ 0 < r.pid ∧ processExists r.pid = true
    · simp [start, h, hc] at hok
    · have hl : loadState m (start m fg w).2 =
          Except.ok { r with state := StateRunning, startedAt := some w.now, pid := w.pid } := by
        simp [start, h, hc, loadState_saveState]
      rw [hl] at hload
      cases hload
      refine ⟨rfl, fun hst => ?_, fun hnone hst => ?_⟩ <;>
        simp [StateRunning, StateStopped] at hst
  · intro r' hok hload
    by_cases hr : r.state = StateRunning
    · have hl : loadState m (stop m w).2 =
          Except.ok { r with state := StateStopped, pid := 0 } := by
        simp [stop, h, hr, loadState_saveState]
      rw [hl] at hload
      cases hload
      exact ⟨rfl, fun _ => rfl, fun hnone _ => ⟨rfl, hnone⟩⟩
    · simp [stop, h, hr] at hok
  · intro hrun hpid hdead r' hload
    have hc : r.state = StateRunning ∧ 0 < r.pid ∧ processExists r.pid = false :=
      ⟨hrun, hpid, hdead⟩
    have hl : loadState m (status m w).2 =
        Except.ok { r with state := StateStopped, pid := 0 } := by
      simp [status, h, hc, loadState_saveState]
    rw [hl] at hload
    cases hload
    exact ⟨rfl, fun _ => rfl, fun hnone _ => ⟨rfl, hnone⟩⟩

theorem lifecycle_writes_inv_witness :
    (loadState c8m c8w2 = Except.ok (defaultRefinery "demo")) ∧
    stoppedInv (defaultRefinery c8m.rig.name) :=
  ⟨rfl, (lifecycle_writes_inv c8m c8w2 (defaultRefinery "demo") rfl).1⟩

end Gastown
